import Mathlib

/-!
Verification development for the visual-media pipeline (`src/lib/visual.cpp`)
of a terminal rendering library.  The C++ source is embedded shallowly:
pixels are 32-bit words modelled as naturals below `2 ^ 32`, buffers are
lists of words, C `int` values are integers, and the external collaborators
(ffmpeg, the rendering surface, the blit primitive) are modelled as oracles
or as recorded calls.
-/

namespace NcVisual

theorem dtrue {p : Prop} [Decidable p] (h : p) : decide p = true := by
  simp [h]

theorem dfalse {p : Prop} [Decidable p] (h : ¬ p) : decide p = false := by
  simp [h]

/-! ## BGRA → RGBA pixel conversion (`bgra_to_rgba`, visual.cpp:128-146)

The per-pixel transform is the C expression
`((*src & 0xff00u) << 16u) | (*src & 0xff00ffu) | ((*src & 0xff000000) >> 16u)`.
-/

def rgbaswap (p : ℕ) : ℕ :=
  ((p &&& 0xff00) <<< 16) ||| (p &&& 0xff00ff) ||| ((p &&& 0xff000000) >>> 16)

theorem tb_ff00 (i : ℕ) :
    Nat.testBit 0xff00 i = (decide (8 ≤ i) && decide (i < 16)) := by
  have h : (0xff00 : ℕ) = (2 ^ 8 - 1) <<< 8 := by decide
  rw [h, Nat.testBit_shiftLeft, Nat.testBit_two_pow_sub_one]
  by_cases h8 : 8 ≤ i
  · simp only [ge_iff_le, dtrue h8, Bool.true_and]
    exact decide_eq_decide.mpr (by omega)
  · simp only [ge_iff_le, dfalse h8, Bool.false_and]

theorem tb_ff000000 (i : ℕ) :
    Nat.testBit 0xff000000 i = (decide (24 ≤ i) && decide (i < 32)) := by
  have h : (0xff000000 : ℕ) = (2 ^ 8 - 1) <<< 24 := by decide
  rw [h, Nat.testBit_shiftLeft, Nat.testBit_two_pow_sub_one]
  by_cases h24 : 24 ≤ i
  · simp only [ge_iff_le, dtrue h24, Bool.true_and]
    exact decide_eq_decide.mpr (by omega)
  · simp only [ge_iff_le, dfalse h24, Bool.false_and]

theorem tb_ff00ff (i : ℕ) :
    Nat.testBit 0xff00ff i
      = (decide (i < 8) || (decide (16 ≤ i) && decide (i < 24))) := by
  have h : (0xff00ff : ℕ) = (2 ^ 8 - 1) ||| ((2 ^ 8 - 1) <<< 16) := by decide
  rw [h, Nat.testBit_lor, Nat.testBit_shiftLeft, Nat.testBit_two_pow_sub_one,
      Nat.testBit_two_pow_sub_one]
  by_cases h16 : 16 ≤ i
  · have h8 : ¬ i < 8 := by omega
    simp only [ge_iff_le, dtrue h16, Bool.true_and, dfalse h8, Bool.false_or]
    exact decide_eq_decide.mpr (by omega)
  · simp only [ge_iff_le, dfalse h16, Bool.false_and, Bool.or_false]

/-- Bit-level characterization of the per-pixel transform: bits 0-7 and
16-23 pass through, bits 8-15 come from bits 24-31, bits 24-31 come
from bits 8-15, and everything at or above bit 32 is cleared. -/
theorem rgbaswap_testBit (p i : ℕ) :
    (rgbaswap p).testBit i =
      if i < 8 then p.testBit i
      else if i < 16 then p.testBit (i + 16)
      else if i < 24 then p.testBit i
      else if i < 32 then p.testBit (i - 16)
      else false := by
  unfold rgbaswap
  rw [Nat.testBit_lor, Nat.testBit_lor, Nat.testBit_shiftLeft,
      Nat.testBit_shiftRight, Nat.testBit_land, Nat.testBit_land,
      Nat.testBit_land, tb_ff00 (i - 16), tb_ff00ff, tb_ff000000 (16 + i)]
  by_cases h1 : i < 8
  · rw [if_pos h1]
    simp only [ge_iff_le, dfalse (by omega : ¬ 16 ≤ i), dtrue h1,
      dfalse (by omega : ¬ 24 ≤ 16 + i), Bool.false_and, Bool.and_false,
      Bool.true_or, Bool.and_true, Bool.false_or, Bool.or_false]
  · by_cases h2 : i < 16
    · rw [if_neg h1, if_pos h2]
      simp only [ge_iff_le, dfalse (by omega : ¬ 16 ≤ i), dfalse h1,
        dtrue (by omega : 24 ≤ 16 + i), dtrue (by omega : 16 + i < 32),
        Bool.false_and, Bool.and_false, Bool.false_or, Bool.true_and,
        Bool.and_true, Bool.or_false]
      rw [Nat.add_comm 16 i]
    · by_cases h3 : i < 24
      · rw [if_neg h1, if_neg h2, if_pos h3]
        simp only [ge_iff_le, dtrue (by omega : 16 ≤ i),
          dfalse (by omega : ¬ 8 ≤ i - 16), dfalse h1, dtrue h3,
          dfalse (by omega : ¬ 16 + i < 32), Bool.false_and, Bool.and_false,
          Bool.true_and, Bool.and_true, Bool.false_or, Bool.or_false]
      · by_cases h4 : i < 32
        · rw [if_neg h1, if_neg h2, if_neg h3, if_pos h4]
          simp only [ge_iff_le, dtrue (by omega : 16 ≤ i),
            dtrue (by omega : 8 ≤ i - 16), dtrue (by omega : i - 16 < 16),
            dfalse h1, dfalse h3, dfalse (by omega : ¬ 16 + i < 32),
            Bool.false_and, Bool.and_false, Bool.true_and, Bool.and_true,
            Bool.false_or, Bool.or_false]
        · rw [if_neg h1, if_neg h2, if_neg h3, if_neg h4]
          simp only [ge_iff_le, dtrue (by omega : 16 ≤ i),
            dfalse (by omega : ¬ i - 16 < 16), dfalse h1, dfalse h3,
            dfalse (by omega : ¬ 16 + i < 32), Bool.false_and, Bool.and_false,
            Bool.true_and, Bool.and_true, Bool.false_or, Bool.or_false]

theorem rgbaswap_rgbaswap (p : ℕ) (h : p < 2 ^ 32) :
    rgbaswap (rgbaswap p) = p := by
  apply Nat.eq_of_testBit_eq
  intro i
  by_cases h1 : i < 8
  · rw [rgbaswap_testBit, if_pos h1, rgbaswap_testBit, if_pos h1]
  · by_cases h2 : i < 16
    · rw [rgbaswap_testBit, if_neg h1, if_pos h2, rgbaswap_testBit,
        if_neg (by omega : ¬ i + 16 < 8), if_neg (by omega : ¬ i + 16 < 16),
        if_neg (by omega : ¬ i + 16 < 24), if_pos (by omega : i + 16 < 32),
        Nat.add_sub_cancel]
    · by_cases h3 : i < 24
      · rw [rgbaswap_testBit, if_neg h1, if_neg h2, if_pos h3,
          rgbaswap_testBit, if_neg h1, if_neg h2, if_pos h3]
      · by_cases h4 : i < 32
        · rw [rgbaswap_testBit, if_neg h1, if_neg h2, if_neg h3, if_pos h4,
            rgbaswap_testBit, if_neg (by omega : ¬ i - 16 < 8),
            if_pos (by omega : i - 16 < 16)]
          congr 1
          omega
        · rw [rgbaswap_testBit, if_neg h1, if_neg h2, if_neg h3, if_neg h4]
          exact (Nat.testBit_lt_two_pow
            (lt_of_lt_of_le h (Nat.pow_le_pow_right (by norm_num)
              (by omega)))).symm

/-- Buffer-level conversion (visual.cpp:128-146).  The source checks the
stride, allocates `rowstride * rows` bytes, and for each `y < rows`,
`x < cols` writes the swapped word at `(rowstride / 4) * y + x`.  A word of
the allocation not written by the loop (padding when `cols < rowstride / 4`)
is modelled as `0`. -/
def bgra_to_rgba (data : List ℕ) (rows rowstride cols : ℕ) : Option (List ℕ) :=
  if rowstride % 4 ≠ 0 then none
  else some (((List.range rows).map fun y =>
    (List.range (rowstride / 4)).map fun x =>
      if x < cols then rgbaswap (data.getD ((rowstride / 4) * y + x) 0)
      else 0).flatten)

theorem flatten_range_map (f : ℕ → ℕ) (r c : ℕ) :
    ((List.range r).map fun y =>
      (List.range c).map fun x => f (c * y + x)).flatten
      = (List.range (r * c)).map f := by
  induction r with
  | zero => simp
  | succ n ih =>
      rw [List.range_succ, List.map_append, List.flatten_append,
        Nat.succ_mul, List.range_add, List.map_append, ih]
      simp [List.map_map, Function.comp_def, Nat.mul_comm]

theorem bgra_to_rgba_tight (data : List ℕ) (rows cols : ℕ)
    (hlen : data.length = rows * cols) :
    bgra_to_rgba data rows (cols * 4) cols = some (data.map rgbaswap) := by
  unfold bgra_to_rgba
  rw [if_neg (by omega : ¬ cols * 4 % 4 ≠ 0)]
  have h4 : cols * 4 / 4 = cols := by omega
  simp only [h4]
  have hrow : ∀ y : ℕ,
      ((List.range cols).map fun x =>
        if x < cols then rgbaswap (data.getD (cols * y + x) 0) else 0)
      = (List.range cols).map fun x => rgbaswap (data.getD (cols * y + x) 0) :=
    fun y => List.map_congr_left fun x hx =>
      if_pos (List.mem_range.mp hx)
  simp only [hrow]
  rw [flatten_range_map (fun i => rgbaswap (data.getD i 0)) rows cols, ← hlen]
  congr 1
  apply List.ext_getElem
  · simp
  · intro i hi hi2
    have hd : i < data.length := by simpa using hi2
    simp [List.getD_eq_getElem?_getD, List.getElem?_eq_getElem hd]

/-- C5: for every buffer whose row stride equals `cols * 4` (dimensions
match stride, stride a multiple of 4), applying `bgra_to_rgba` twice
returns a buffer bit-for-bit identical to the original input. -/
theorem C5_bgra_to_rgba_involutive (data : List ℕ) (rows rowstride cols : ℕ)
    (hstride : rowstride = cols * 4)
    (hlen : data.length = rows * cols)
    (hp : ∀ p ∈ data, p < 2 ^ 32) :
    (bgra_to_rgba data rows rowstride cols).bind
      (fun d => bgra_to_rgba d rows rowstride cols) = some data := by
  subst hstride
  rw [bgra_to_rgba_tight data rows cols hlen, Option.some_bind,
    bgra_to_rgba_tight _ rows cols (by simp [hlen]), List.map_map]
  have h : data.map (rgbaswap ∘ rgbaswap) = data.map id :=
    List.map_congr_left fun a ha => rgbaswap_rgbaswap a (hp a ha)
  rw [h, List.map_id]

/-- Witness for C5 at a concrete two-pixel buffer. -/
theorem C5_witness :
    (8 : ℕ) = 2 * 4 ∧ ([287454020, 2864434397] : List ℕ).length = 1 * 2 ∧
    (∀ p ∈ ([287454020, 2864434397] : List ℕ), p < 2 ^ 32) ∧
    (bgra_to_rgba [287454020, 2864434397] 1 8 2).bind
      (fun d => bgra_to_rgba d 1 8 2) = some [287454020, 2864434397] :=
  ⟨by norm_num, by decide, by decide,
    C5_bgra_to_rgba_involutive [287454020, 2864434397] 1 8 2 (by norm_num)
      (by decide) (by decide)⟩

/-- C10: for every 32-bit input pixel, `bgra_to_rgba`'s per-word transform
leaves bits 0-7 and 16-23 unchanged and exchanges bits 8-15 with bits
24-31 — on a little-endian layout it swaps the second and fourth bytes
(G and A of a BGRA pixel), not the first and third (B and R). -/
theorem C10_rgbaswap_byte_exchange (p i : ℕ) (hp : p < 2 ^ 32) (hi : i < 8) :
    (rgbaswap p).testBit i = p.testBit i ∧
    (rgbaswap p).testBit (16 + i) = p.testBit (16 + i) ∧
    (rgbaswap p).testBit (8 + i) = p.testBit (24 + i) ∧
    (rgbaswap p).testBit (24 + i) = p.testBit (8 + i) := by
  refine ⟨?_, ?_, ?_, ?_⟩ <;> rw [rgbaswap_testBit]
  · rw [if_pos hi]
  · rw [if_neg (by omega : ¬ 16 + i < 8), if_neg (by omega : ¬ 16 + i < 16),
      if_pos (by omega : 16 + i < 24)]
  · rw [if_neg (by omega : ¬ 8 + i < 8), if_pos (by omega : 8 + i < 16),
      show 8 + i + 16 = 24 + i by omega]
  · rw [if_neg (by omega : ¬ 24 + i < 8), if_neg (by omega : ¬ 24 + i < 16),
      if_neg (by omega : ¬ 24 + i < 24), if_pos (by omega : 24 + i < 32),
      show 24 + i - 16 = 8 + i by omega]

/-- Witness for C10 at pixel 0x12345678, bit 3. -/
theorem C10_witness :
    (305419896 : ℕ) < 2 ^ 32 ∧ (3 : ℕ) < 8 ∧
    ((rgbaswap 305419896).testBit 3 = (305419896 : ℕ).testBit 3 ∧
     (rgbaswap 305419896).testBit 19 = (305419896 : ℕ).testBit 19 ∧
     (rgbaswap 305419896).testBit 11 = (305419896 : ℕ).testBit 27 ∧
     (rgbaswap 305419896).testBit 27 = (305419896 : ℕ).testBit 11) :=
  ⟨by norm_num, by norm_num, C10_rgbaswap_byte_exchange 305419896 3
    (by norm_num) (by norm_num)⟩

/-! ## The Visual aggregate and the renderer (visual.cpp:37-77, 233-264,
296-331)

`ncvisual_render` validates a sub-window of the visual's RGBA buffer and
then delegates to the external blit primitive `ncblit_rgba`.  The blit
primitive is external, so a call to it is modelled as a record of its
arguments; the render result is either an error (`-1` in C), the
unreachable early `return 0`, or the issued blit call. -/

structure Visual where
  dstwidth : ℤ
  dstheight : ℤ
  rowstride : ℤ
  placey : ℤ
  placex : ℤ
  data : Option (List ℕ)
  deriving Repr, DecidableEq

structure BlitCall where
  placey : ℤ
  placex : ℤ
  rowstride : ℤ
  data : List ℕ
  begy : ℤ
  begx : ℤ
  leny : ℤ
  lenx : ℤ
  deriving Repr, DecidableEq

inductive RenderOut where
  | err : RenderOut
  | zeroskip : RenderOut
  | blit : BlitCall → RenderOut
  deriving Repr, DecidableEq


/-- Renderer (visual.cpp:296-331).  `-1` lengths default to the remainder
of the buffer from the origin.  The C early returns map to `err`
(`return -1`), `zeroskip` (`return 0` at the dead negative-length check)
and `blit` (the tail call into `ncblit_rgba`, whose arguments the record
captures; `v.data.getD []` is the buffer the null check has already
guaranteed present). -/
def ncvisual_render (v : Visual) (begy begx leny lenx : ℤ) : RenderOut :=
  if begy < 0 ∨ begx < 0 ∨ lenx < -1 ∨ leny < -1 then .err
  else if v.data = none then .err
  else if begx ≥ v.dstwidth ∨ begy ≥ v.dstheight then .err
  else if (if lenx = -1 then v.dstwidth - begx else lenx) < 0 ∨
          (if leny = -1 then v.dstheight - begy else leny) < 0 then .zeroskip
  else if begx + (if lenx = -1 then v.dstwidth - begx else lenx) > v.dstwidth ∨
          begy + (if leny = -1 then v.dstheight - begy else leny) > v.dstheight
    then .err
  else .blit ⟨v.placey, v.placex, v.rowstride, v.data.getD [], begy, begx,
    (if leny = -1 then v.dstheight - begy else leny),
    (if lenx = -1 then v.dstwidth - begx else lenx)⟩

/-- C4: a render request with a negative origin, an origin not strictly
inside the destination, or a window exceeding the buffer after defaulting
the `-1` lengths, returns an error and never invokes the blit primitive. -/
theorem C4_render_rejects (v : Visual) (begy begx leny lenx : ℤ)
    (h : begy < 0 ∨ begx < 0 ∨ begy ≥ v.dstheight ∨ begx ≥ v.dstwidth ∨
      (begx + (if lenx = -1 then v.dstwidth - begx else lenx) > v.dstwidth ∨
       begy + (if leny = -1 then v.dstheight - begy else leny) > v.dstheight)) :
    ncvisual_render v begy begx leny lenx = .err := by
  unfold ncvisual_render
  by_cases h0 : begy < 0 ∨ begx < 0 ∨ lenx < -1 ∨ leny < -1
  · rw [if_pos h0]
  · rw [if_neg h0]
    by_cases hd : v.data = none
    · rw [if_pos hd]
    · rw [if_neg hd]
      by_cases h1 : begx ≥ v.dstwidth ∨ begy ≥ v.dstheight
      · rw [if_pos h1]
      · rw [if_neg h1]
        push_neg at h0 h1
        have hx : ¬ ((if lenx = -1 then v.dstwidth - begx else lenx) < 0 ∨
            (if leny = -1 then v.dstheight - begy else leny) < 0) := by
          push_neg
          constructor
          · by_cases hlx : lenx = -1
            · rw [if_pos hlx]
              omega
            · rw [if_neg hlx]
              omega
          · by_cases hly : leny = -1
            · rw [if_pos hly]
              omega
            · rw [if_neg hly]
              omega
        rw [if_neg hx, if_pos]
        rcases h with h | h | h | h | h
        · omega
        · omega
        · omega
        · omega
        · exact h

/-- Witness for C4: origin row 5 is outside a 4-row visual. -/
theorem C4_witness :
    ((5 : ℤ) < 0 ∨ (0 : ℤ) < 0 ∨ (5 : ℤ) ≥ (4 : ℤ) ∨ (0 : ℤ) ≥ (4 : ℤ) ∨
      ((0 : ℤ) + (if (-1 : ℤ) = -1 then (4 : ℤ) - 0 else -1) > 4 ∨
       (5 : ℤ) + (if (-1 : ℤ) = -1 then (4 : ℤ) - 5 else -1) > 4)) ∧
    ncvisual_render ⟨4, 4, 16, 0, 0, some (List.replicate 16 0)⟩ 5 0 (-1) (-1)
      = .err :=
  ⟨by norm_num,
    C4_render_rejects ⟨4, 4, 16, 0, 0, some (List.replicate 16 0)⟩ 5 0 (-1)
      (-1) (by norm_num)⟩

/-- C3 (code divergence): the source's only zero-size early exit is the
check `lenx < 0 || leny < 0` after `-1` defaulting (visual.cpp:314), which
an explicit zero-length window does not satisfy, so the code falls through
and invokes `ncblit_rgba` with a zero-length window instead of returning
success without blitting.  Shown here on a 2×2 visual rendered with
`leny = lenx = 0` at the in-bounds origin (0,0): the result is a blit
call, not a blit-free success. -/
theorem C3_zero_window_still_blits :
    ncvisual_render ⟨2, 2, 8, 0, 0, some [1, 2, 3, 4]⟩ 0 0 0 0
      = .blit ⟨0, 0, 8, [1, 2, 3, 4], 0, 0, 0, 0⟩ := by
  decide

/-- Model of `memdup(rgba, rowstride * rows)` at word granularity: the
first `rowstride / 4 * rows` words of the input are copied. -/
def memdup_words (rgba : List ℕ) (nwords : ℤ) : List ℕ :=
  rgba.take nwords.toNat

/-- Constructor from a raw RGBA buffer (visual.cpp:233-264): rejects a
stride that is not a multiple of 4, otherwise copies the buffer into an
owned allocation; `ncvisual_create` value-initializes the object, so the
placement offset is (0,0).  Plane creation is an external effect not
carried by the model. -/
def ncvisual_from_rgba (rgba : List ℕ) (rows rowstride cols : ℤ) :
    Option Visual :=
  if rowstride % 4 ≠ 0 then none
  else some ⟨cols, rows, rowstride, 0, 0,
    some (memdup_words rgba (rowstride / 4 * rows))⟩

/-- C6: for every valid RGBA input with stride a multiple of 4,
`ncvisual_from_rgba` followed by `ncvisual_render 0 0 (-1) (-1)` hands the
blit primitive a buffer equal to the input, pixel for pixel over the full
`rows × cols` region, with the same row stride. -/
theorem C6_from_rgba_render_roundtrip (rgba : List ℕ)
    (rows rowstride cols : ℤ)
    (h4 : rowstride % 4 = 0) (hr : 0 < rows) (hc : 0 < cols)
    (hlen : rgba.length = (rowstride / 4 * rows).toNat) :
    (ncvisual_from_rgba rgba rows rowstride cols).map
      (fun v => ncvisual_render v 0 0 (-1) (-1))
      = some (.blit ⟨0, 0, rowstride, rgba, 0, 0, rows, cols⟩) := by
  unfold ncvisual_from_rgba
  rw [if_neg (by omega)]
  rw [Option.map_some']
  unfold ncvisual_render
  dsimp only
  rw [if_neg (by norm_num)]
  rw [if_neg (by simp)]
  rw [if_neg (by push_neg; constructor <;> [simpa using hc; simpa using hr])]
  rw [if_neg (by rw [if_pos rfl, if_pos rfl]; push_neg; omega)]
  rw [if_neg (by rw [if_pos rfl, if_pos rfl]; push_neg; omega)]
  rw [if_pos rfl, if_pos rfl]
  have hdup : memdup_words rgba (rowstride / 4 * rows) = rgba := by
    unfold memdup_words
    rw [← hlen, List.take_length]
  simp [hdup]

/-- Witness for C6 on a concrete 1×2 buffer with stride 8. -/
theorem C6_witness :
    (8 : ℤ) % 4 = 0 ∧ (0 : ℤ) < 1 ∧ (0 : ℤ) < 2 ∧
    ([7, 9] : List ℕ).length = ((8 : ℤ) / 4 * 1).toNat ∧
    (ncvisual_from_rgba [7, 9] 1 8 2).map
      (fun v => ncvisual_render v 0 0 (-1) (-1))
      = some (.blit ⟨0, 0, 8, [7, 9], 0, 0, 1, 2⟩) :=
  ⟨by norm_num, by norm_num, by norm_num, by decide,
    C6_from_rgba_render_roundtrip [7, 9] 1 8 2 (by norm_num) (by norm_num)
      (by norm_num) (by decide)⟩

/-! ## Rotation (`ncvisual_rotate`, visual.cpp:159-231)

The rotation loop computes, for each source pixel (y, x), centered
coordinates, rotates them by the angle's sine and cosine, and re-centers
into a freshly allocated `pdiam × pdiam` buffer, `pdiam` being
`max dstheight dstwidth`.  A C assignment of the `double` rotation result
to an `int` truncates toward zero, modelled by `truncTZ`.  The sine and
cosine are passed in as exact rationals; at the angle π they are exactly
0 and -1, both in ℝ and in IEEE evaluation of the C program at the pixel
used below (there `convx = 0`, so the inexact `sin` of the double closest
to π is multiplied by zero). -/

def truncTZ (q : ℚ) : ℤ :=
  if 0 ≤ q then ⌊q⌋ else ⌈q⌉

def rotate_deconv (stheta ctheta : ℚ) (dstheight dstwidth y x : ℤ) :
    ℤ × ℤ :=
  let pdiam := max dstheight dstwidth
  let centx := dstwidth / 2
  let centy := dstheight / 2
  let convy := y - centy
  let convx := x - centx
  let targy := truncTZ ((convx : ℚ) * stheta + (convy : ℚ) * ctheta)
  let targx := truncTZ ((convx : ℚ) * ctheta + (convy : ℚ) * stheta)
  (targy + pdiam / 2, targx + pdiam / 2)

/-- C1 (code divergence): rotating a 4×4 visual by π maps the source pixel
(y, x) = (0, 2) to destination row `deconvy = 4 = pdiam`, outside
`[0, pdiam)`, so the loop writes `data[4 * pdiam + 2]`, past the
`pdiam × pdiam` allocation, and the in-loop `assert(deconvy < pdiam)`
fails.  The first two conjuncts fix the sine and cosine of the angle. -/
theorem C1_rotation_escapes_bounds :
    Real.sin Real.pi = 0 ∧ Real.cos Real.pi = -1 ∧
    rotate_deconv 0 (-1) 4 4 0 2 = (4, 2) ∧
    ¬ (rotate_deconv 0 (-1) 4 4 0 2).1 < max (4 : ℤ) 4 := by
  refine ⟨Real.sin_pi, Real.cos_pi, ?_, ?_⟩ <;>
    norm_num [rotate_deconv, truncTZ]

/-! ## Stream scheduler (`ncvisual_stream`, visual.cpp:727-782)

The scheduler loops `decode → render(full frame) → callback`, with pacing
sleeps between frames (time has no effect on control flow, so sleeps are
not modelled).  Decode results, render results and callback returns are
oracles indexed by iteration.  The run returns `none` only when the fuel
bound is exhausted before the loop exits. -/

inductive DecodeR where
  | success : DecodeR
  | eof : DecodeR
  | failure : DecodeR
  deriving Repr, DecidableEq

structure StreamStats where
  result : ℤ
  cbCalls : ℕ
  decodeCalls : ℕ
  renderCalls : ℕ
  deriving Repr, DecidableEq

def ncvisual_stream (decodes : ℕ → DecodeR) (renders : ℕ → ℤ)
    (cb : ℕ → ℤ) : ℕ → ℕ → Option StreamStats
  | 0, _ => none
  | fuel + 1, k =>
    match decodes k with
    | .eof => some ⟨0, k, k + 1, k⟩
    | .failure => some ⟨-1, k, k + 1, k⟩
    | .success =>
      if renders k < 0 then some ⟨-1, k, k + 1, k + 1⟩
      else if cb k ≠ 0 then some ⟨cb k, k + 1, k + 1, k + 1⟩
      else ncvisual_stream decodes renders cb fuel (k + 1)

theorem ncvisual_stream_halts_from (decodes : ℕ → DecodeR)
    (renders : ℕ → ℤ) (cb : ℕ → ℤ) (K : ℕ) (r : ℤ) (hr : r ≠ 0)
    (hdec : ∀ i, i < K → decodes i = .success)
    (hren : ∀ i, i < K → 0 ≤ renders i)
    (hcb0 : ∀ i, i < K - 1 → cb i = 0)
    (hcbK : cb (K - 1) = r) :
    ∀ fuel j, j < K → K - j ≤ fuel →
      ncvisual_stream decodes renders cb fuel j = some ⟨r, K, K, K⟩ := by
  intro fuel
  induction fuel with
  | zero =>
      intro j hj hfuel
      omega
  | succ n ih =>
      intro j hj hfuel
      unfold ncvisual_stream
      rw [hdec j hj]
      rw [if_neg (by have := hren j hj; omega)]
      by_cases hlast : j = K - 1
      · subst hlast
        rw [if_pos (by rw [hcbK]; exact hr), hcbK]
        have hK : K - 1 + 1 = K := by omega
        rw [hK]
      · rw [if_neg (by simp [hcb0 j (by omega)])]
        exact ih (j + 1) (by omega) (by omega)

/-- C7: if the callback returns a non-zero code `r` on its `K`-th
invocation (and `0` before), the scheduler stops after exactly `K`
callback invocations — no further decode or render occurs — and returns
`r` as its own result. -/
theorem C7_stream_callback_halts (decodes : ℕ → DecodeR)
    (renders : ℕ → ℤ) (cb : ℕ → ℤ) (K fuel : ℕ) (r : ℤ)
    (hK : 0 < K) (hfuel : K ≤ fuel) (hr : r ≠ 0)
    (hdec : ∀ i, i < K → decodes i = .success)
    (hren : ∀ i, i < K → 0 ≤ renders i)
    (hcb0 : ∀ i, i < K - 1 → cb i = 0)
    (hcbK : cb (K - 1) = r) :
    ncvisual_stream decodes renders cb fuel 0 = some ⟨r, K, K, K⟩ :=
  ncvisual_stream_halts_from decodes renders cb K r hr hdec hren hcb0 hcbK
    fuel 0 hK (by omega)

/-- Witness for C7: the callback returns 5 on its second invocation. -/
theorem C7_witness :
    (0 : ℕ) < 2 ∧ (2 : ℕ) ≤ 3 ∧ (5 : ℤ) ≠ 0 ∧
    ncvisual_stream (fun _ => .success) (fun _ => 0)
      (fun i => if i = 1 then 5 else 0) 3 0 = some ⟨5, 2, 2, 2⟩ :=
  ⟨by norm_num, by norm_num, by norm_num,
    C7_stream_callback_halts (fun _ => .success) (fun _ => 0)
      (fun i => if i = 1 then 5 else 0) 2 3 5 (by norm_num) (by norm_num)
      (by norm_num) (fun i _ => rfl) (fun i _ => by norm_num)
      (fun i hi => by interval_cases i <;> rfl) (by rfl)⟩

/-! ## Build with neither decode backend (visual.cpp:790-848)

Each entry point is compiled as a stub.  `ncvisual_decode` returns
`NCERR_UNIMPLEMENTED`; `ncvisual_stream` returns `-1` and leaves the
caller's `nc_err_e` out-parameter untouched (`(void)ncerr`), modelled by
threading the out-parameter value through; `ncplane_visual_open` and
`ncvisual_from_file` return a null visual, also leaving the out-parameter
untouched; `ncvisual_subtitle` returns null; both capability queries
return `false`. -/

inductive nc_err_e where
  | NCERR_SUCCESS : nc_err_e
  | NCERR_EOF : nc_err_e
  | NCERR_DECODE : nc_err_e
  | NCERR_NOMEM : nc_err_e
  | NCERR_UNIMPLEMENTED : nc_err_e
  deriving Repr, DecidableEq

namespace NoBackend

def notcurses_canopen_images : Bool := false

def notcurses_canopen_videos : Bool := false

def ncvisual_decode : nc_err_e := .NCERR_UNIMPLEMENTED

def ncvisual_stream (ncerr : nc_err_e) : ℤ × nc_err_e :=
  (-1, ncerr)

def ncplane_visual_open (ncerr : nc_err_e) : Option Visual × nc_err_e :=
  (none, ncerr)

def ncvisual_from_file (ncerr : nc_err_e) : Option Visual × nc_err_e :=
  (none, ncerr)

def ncvisual_subtitle : Option (List Char) := none

end NoBackend

/-- C8 (counterexample): in the no-backend build, `ncvisual_stream` called
with the out-parameter initialized to `NCERR_SUCCESS` returns `-1` but
never stores `NCERR_UNIMPLEMENTED` (the stub discards the pointer), so not
every decode/stream entry point reports an Unimplemented error as the
claim requires. -/
theorem C8_stream_reports_no_unimplemented :
    (NoBackend.ncvisual_stream .NCERR_SUCCESS).1 = -1 ∧
    (NoBackend.ncvisual_stream .NCERR_SUCCESS).2 ≠ .NCERR_UNIMPLEMENTED := by
  decide

/-- C8 (amended): in the no-backend build every decode/stream/subtitle/
open-by-name entry point fails — `ncvisual_decode` reports
`NCERR_UNIMPLEMENTED`, `ncvisual_stream` returns `-1`, and
`ncplane_visual_open`/`ncvisual_from_file`/`ncvisual_subtitle` return
null — but only `ncvisual_decode` stores the Unimplemented code; the
stream/open stubs leave the caller's error slot unchanged.  Both
capability queries return `false`. -/
theorem C8_no_backend_stubs (e : nc_err_e) :
    NoBackend.ncvisual_decode = .NCERR_UNIMPLEMENTED ∧
    NoBackend.ncvisual_stream e = (-1, e) ∧
    NoBackend.ncplane_visual_open e = (none, e) ∧
    NoBackend.ncvisual_from_file e = (none, e) ∧
    NoBackend.ncvisual_subtitle = none ∧
    NoBackend.notcurses_canopen_images = false ∧
    NoBackend.notcurses_canopen_videos = false :=
  ⟨rfl, rfl, rfl, rfl, rfl, rfl, rfl⟩

/-! ## Streaming decode (`ncvisual_decode`, ffmpeg build, visual.cpp:467-515)

The ffmpeg collaborators are an oracle: `readOk n` / `readStream n` give
the outcome and stream index of the n-th `av_read_frame`, `sendOk n` the
outcome of the n-th `avcodec_send_packet`, `recv n` the outcome of the
n-th `avcodec_receive_frame`.  The machine state carries the
`packet_outstanding` counter, the next index into each oracle, a trace of
every value `packet_outstanding` takes after an increment or decrement,
whether the `AVPacket` currently holds (references) a compressed unit,
and, for every `av_read_frame` call, whether the packet was still holding
a unit at that moment (after the `unref` flag's release).  Both the outer
`do { … } while(!have_frame)` loop and the C recursion taken when a send
fails re-enter the top of the function and are modelled by fueled
re-entry; `none` means the fuel ran out before the call returned. -/

inductive RecvR where
  | frame : RecvR
  | again : RecvR
  | failure : RecvR
  deriving Repr, DecidableEq

structure DecOracle where
  readOk : ℕ → Bool
  readStream : ℕ → ℤ
  sendOk : ℕ → Bool
  recv : ℕ → RecvR

structure DecSt where
  packet_outstanding : ℤ
  ridx : ℕ
  sidx : ℕ
  vidx : ℕ
  trace : List ℤ
  packet_ref : Bool
  reads : List Bool
  deriving Repr, DecidableEq

def av_read_loop (o : DecOracle) (si : ℤ) :
    ℕ → Bool → DecSt → Option (Bool × DecSt)
  | 0, _, _ => none
  | fuel + 1, unref, st =>
    if st.packet_outstanding ≠ 0 then some (true, st)
    else if o.readOk st.ridx = false then
      some (false, { st with
        reads := st.reads ++ [if unref then false else st.packet_ref],
        ridx := st.ridx + 1, packet_ref := false })
    else if o.readStream st.ridx = si then
      some (true, { st with
        reads := st.reads ++ [if unref then false else st.packet_ref],
        ridx := st.ridx + 1, packet_ref := true })
    else
      av_read_loop o si fuel true { st with
        reads := st.reads ++ [if unref then false else st.packet_ref],
        ridx := st.ridx + 1, packet_ref := true }

def ncvisual_decode (o : DecOracle) (si : ℤ) :
    ℕ → DecSt → Option (Bool × DecSt)
  | 0, _ => none
  | fuel + 1, st =>
    match av_read_loop o si (fuel + 1) false st with
    | none => none
    | some (false, st1) => some (false, st1)
    | some (true, st1) =>
      if o.sendOk st1.sidx = false then
        ncvisual_decode o si fuel { st1 with
          sidx := st1.sidx + 1,
          packet_outstanding := st1.packet_outstanding + 1,
          trace := st1.trace ++ [st1.packet_outstanding + 1] }
      else
        match o.recv st1.vidx with
        | .frame => some (true, { st1 with
            sidx := st1.sidx + 1, vidx := st1.vidx + 1,
            packet_outstanding := st1.packet_outstanding + 1 - 1,
            trace := st1.trace ++ [st1.packet_outstanding + 1,
              st1.packet_outstanding + 1 - 1],
            packet_ref := false })
        | .again => ncvisual_decode o si fuel { st1 with
            sidx := st1.sidx + 1, vidx := st1.vidx + 1,
            packet_outstanding := st1.packet_outstanding + 1 - 1,
            trace := st1.trace ++ [st1.packet_outstanding + 1,
              st1.packet_outstanding + 1 - 1],
            packet_ref := false }
        | .failure => some (false, { st1 with
            sidx := st1.sidx + 1, vidx := st1.vidx + 1,
            packet_outstanding := st1.packet_outstanding + 1 - 1,
            trace := st1.trace ++ [st1.packet_outstanding + 1,
              st1.packet_outstanding + 1 - 1],
            packet_ref := false })

/-- C2 (counterexample): one failed `avcodec_send_packet` triggers the
recursive retry; the retry's read loop breaks out immediately (a packet is
outstanding), so the counter is incremented a second time without an
intervening read or release and `packet_outstanding` reaches 2.  The
oracle: every read succeeds and matches stream 0, the first send fails,
the second succeeds, the first receive delivers a frame. -/
theorem C2_retry_reaches_two :
    ncvisual_decode
      ⟨fun _ => true, fun _ => 0, fun n => decide (n ≠ 0), fun _ => .frame⟩
      0 3 ⟨0, 0, 0, 0, [], false, []⟩
      = some (true, ⟨1, 1, 2, 1, [1, 2, 1], false, [false]⟩) ∧
    ¬ ∀ v ∈ [(1 : ℤ), 2, 1], v ≤ 1 := by
  constructor
  · rfl
  · decide

theorem av_read_loop_spec (o : DecOracle) (si : ℤ) :
    ∀ fuel unref st b st',
      av_read_loop o si fuel unref st = some (b, st') →
      st'.packet_outstanding = st.packet_outstanding ∧
      st'.trace = st.trace ∧ st'.sidx = st.sidx ∧ st'.vidx = st.vidx ∧
      ((st.packet_ref = false ∨ unref = true) →
        ∀ e ∈ st'.reads, e ∈ st.reads ∨ e = false) := by
  intro fuel
  induction fuel with
  | zero =>
      intro unref st b st' h
      exact absurd h (by rw [av_read_loop]; exact Option.noConfusion)
  | succ n ih =>
      intro unref st b st' h
      rw [av_read_loop] at h
      by_cases h0 : st.packet_outstanding ≠ 0
      · rw [if_pos h0] at h
        rw [Option.some.injEq, Prod.mk.injEq] at h
        obtain ⟨-, rfl⟩ := h
        exact ⟨rfl, rfl, rfl, rfl, fun _ e he => Or.inl he⟩
      · rw [if_neg h0] at h
        have hev : (if unref then false else st.packet_ref) = true →
            ¬ (st.packet_ref = false ∨ unref = true) := by
          by_cases hu : unref
          · simp [hu]
          · simp [hu]
        by_cases hrd : o.readOk st.ridx = false
        · rw [if_pos hrd, Option.some.injEq, Prod.mk.injEq] at h
          obtain ⟨-, rfl⟩ := h
          refine ⟨rfl, rfl, rfl, rfl, fun hc e he => ?_⟩
          simp only [List.mem_append, List.mem_singleton] at he
          rcases he with he | he
          · exact Or.inl he
          · subst he
            cases hb : (if unref then false else st.packet_ref) with
            | false => exact Or.inr rfl
            | true => exact absurd hc (hev hb)
        · rw [if_neg hrd] at h
          by_cases hsi : o.readStream st.ridx = si
          · rw [if_pos hsi, Option.some.injEq, Prod.mk.injEq] at h
            obtain ⟨-, rfl⟩ := h
            refine ⟨rfl, rfl, rfl, rfl, fun hc e he => ?_⟩
            simp only [List.mem_append, List.mem_singleton] at he
            rcases he with he | he
            · exact Or.inl he
            · subst he
              cases hb : (if unref then false else st.packet_ref) with
              | false => exact Or.inr rfl
              | true => exact absurd hc (hev hb)
          · rw [if_neg hsi] at h
            obtain ⟨ho, ht, hs, hv, hr⟩ := ih true _ b st' h
            refine ⟨ho, ht, hs, hv, fun hc e he => ?_⟩
            rcases hr (Or.inr rfl) e he with he2 | he2
            · simp only [List.mem_append, List.mem_singleton] at he2
              rcases he2 with he3 | he3
              · exact Or.inl he3
              · subst he3
                cases hb : (if unref then false else st.packet_ref) with
                | false => exact Or.inr rfl
                | true => exact absurd hc (hev hb)
            · exact Or.inr he2

theorem ncvisual_decode_bounded (o : DecOracle) (si : ℤ)
    (hsend : ∀ i, o.sendOk i = true) :
    ∀ fuel st b st',
      st.packet_outstanding = 0 → st.packet_ref = false →
      (∀ v ∈ st.trace, v ≤ 1) → (∀ e ∈ st.reads, e = false) →
      ncvisual_decode o si fuel st = some (b, st') →
      (∀ v ∈ st'.trace, v ≤ 1) ∧ (∀ e ∈ st'.reads, e = false) := by
  intro fuel
  induction fuel with
  | zero =>
      intro st b st' h0 href htr hrd h
      exact absurd h (by rw [ncvisual_decode]; exact Option.noConfusion)
  | succ n ih =>
      intro st b st' h0 href htr hrd h
      rw [ncvisual_decode] at h
      split at h
      · exact absurd h Option.noConfusion
      · next st1 heq =>
          obtain ⟨ho1, ht1, -, -, hr1⟩ :=
            av_read_loop_spec o si (n + 1) false st false st1 heq
          have htr1 : ∀ v ∈ st1.trace, v ≤ 1 := ht1 ▸ htr
          have hrd1 : ∀ e ∈ st1.reads, e = false := by
            intro e he
            rcases hr1 (Or.inl href) e he with h2 | h2
            · exact hrd e h2
            · exact h2
          rw [Option.some.injEq, Prod.mk.injEq] at h
          obtain ⟨-, rfl⟩ := h
          exact ⟨htr1, hrd1⟩
      · next st1 heq =>
          obtain ⟨ho1, ht1, -, -, hr1⟩ :=
            av_read_loop_spec o si (n + 1) false st true st1 heq
          have htr1 : ∀ v ∈ st1.trace, v ≤ 1 := ht1 ▸ htr
          have hrd1 : ∀ e ∈ st1.reads, e = false := by
            intro e he
            rcases hr1 (Or.inl href) e he with h2 | h2
            · exact hrd e h2
            · exact h2
          have ho0 : st1.packet_outstanding = 0 := ho1.trans h0
          rw [if_neg (by simp [hsend])] at h
          have htr2 : ∀ v ∈ st1.trace ++
              [st1.packet_outstanding + 1,
               st1.packet_outstanding + 1 - 1], v ≤ 1 := by
            intro v hv
            simp only [List.mem_append, List.mem_cons,
              List.mem_singleton, List.not_mem_nil, or_false] at hv
            rcases hv with hv | hv | hv
            · exact htr1 v hv
            · rw [hv, ho0]
              norm_num
            · rw [hv, ho0]
              norm_num
          split at h
          · rw [Option.some.injEq, Prod.mk.injEq] at h
            obtain ⟨-, rfl⟩ := h
            exact ⟨htr2, hrd1⟩
          · refine ih _ b st' ?_ rfl ?_ ?_ h
            · show st1.packet_outstanding + 1 - 1 = 0
              omega
            · exact htr2
            · exact hrd1
          · rw [Option.some.injEq, Prod.mk.injEq] at h
            obtain ⟨-, rfl⟩ := h
            exact ⟨htr2, hrd1⟩

/-- C2 (amended): in a run of the streaming decode in which no
`avcodec_send_packet` fails (so the recursive retry is never taken),
starting from a clean state, the in-flight compressed-unit counter
`packet_outstanding` never exceeds 1 at any point, and every
`av_read_frame` happens with the previously held compressed unit already
released.  A failed send leaves the counter incremented and re-enters
the function recursively, which increments it again without an
intervening read, so across the recursive retry the counter exceeds 1
(see the counterexample). -/
theorem C2_outstanding_bounded_without_send_failure (o : DecOracle)
    (si : ℤ) (fuel : ℕ) (b : Bool) (st' : DecSt)
    (hsend : ∀ i, o.sendOk i = true)
    (hrun : ncvisual_decode o si fuel ⟨0, 0, 0, 0, [], false, []⟩
      = some (b, st')) :
    (∀ v ∈ st'.trace, v ≤ 1) ∧ (∀ e ∈ st'.reads, e = false) :=
  ncvisual_decode_bounded o si hsend fuel ⟨0, 0, 0, 0, [], false, []⟩ b st'
    rfl rfl (by simp) (by simp) hrun

/-- Witness for the amended C2 on an all-success oracle. -/
theorem C2_witness :
    (∀ i : ℕ, (⟨fun _ => true, fun _ => 0, fun _ => true,
      fun _ => .frame⟩ : DecOracle).sendOk i = true) ∧
    ncvisual_decode
      ⟨fun _ => true, fun _ => 0, fun _ => true, fun _ => .frame⟩ 0 1
      ⟨0, 0, 0, 0, [], false, []⟩
      = some (true, ⟨0, 1, 1, 1, [1, 0], false, [false]⟩) ∧
    ((∀ v ∈ (⟨0, 1, 1, 1, [1, 0], false, [false]⟩ : DecSt).trace, v ≤ 1) ∧
     (∀ e ∈ (⟨0, 1, 1, 1, [1, 0], false, [false]⟩ : DecSt).reads,
       e = false)) :=
  ⟨fun _ => rfl, rfl,
    C2_outstanding_bounded_without_send_failure
      ⟨fun _ => true, fun _ => 0, fun _ => true, fun _ => .frame⟩ 0 1 true
      ⟨0, 1, 1, 1, [1, 0], false, [false]⟩ (fun _ => rfl) rfl⟩

/-! ## Subtitle extraction (`deass` / `ncvisual_subtitle`,
visual.cpp:412-455)

`deass` rejects a line not beginning with `Dialogue:` (a 9-character
`strncmp`), then advances through the `strchr(…, ',')` chain — one initial
search plus eight loop iterations, so the duplicated text starts after the
NINTH comma — and blanks ASS escape sequences in place: a backslash and
the character after it (when one exists) both become spaces.
`ncvisual_subtitle` walks the subtitle rectangles and returns on the first
ASS or TEXT rectangle; no rectangle yields no text. -/

def strchrAfterComma : List Char → Option (List Char)
  | [] => none
  | c :: rest => if c = ',' then some rest else strchrAfterComma rest

def skipCommas : ℕ → List Char → Option (List Char)
  | 0, s => some s
  | k + 1, s => (strchrAfterComma s).bind (skipCommas k)

def deassUnescape : List Char → List Char
  | [] => []
  | '\\' :: [] => [' ']
  | '\\' :: _ :: rest => ' ' :: ' ' :: deassUnescape rest
  | c :: rest => c :: deassUnescape rest

def deass (ass : List Char) : Option (List Char) :=
  if ass.take 9 ≠ "Dialogue:".toList then none
  else (skipCommas 9 ass).map deassUnescape

/-- Model of the claim's reading of the format: the text remaining after
stripping exactly 8 comma-delimited leading fields. -/
def deassSpec8 (ass : List Char) : Option (List Char) :=
  if ass.take 9 ≠ "Dialogue:".toList then none
  else (skipCommas 8 ass).map deassUnescape

inductive SubtitleType where
  | SUBTITLE_NONE : SubtitleType
  | SUBTITLE_BITMAP : SubtitleType
  | SUBTITLE_TEXT : SubtitleType
  | SUBTITLE_ASS : SubtitleType
  deriving Repr, DecidableEq

structure SubRect where
  rtype : SubtitleType
  content : List Char

def ncvisual_subtitle : List SubRect → Option (List Char)
  | [] => none
  | r :: rest =>
    match r.rtype with
    | .SUBTITLE_ASS => deass r.content
    | .SUBTITLE_TEXT => some r.content
    | _ => ncvisual_subtitle rest

/-- C9 (counterexample): a structured dialogue line with exactly 8
comma-delimited leading fields before the text.  Stripping 8 fields, as
the claim states, would return the text; the code instead searches for a
ninth comma, finds none, and returns no text at all. -/
theorem C9_eight_field_line_dropped :
    deass ("Dialogue: a,b,c,d,e,f,g,h,i".toList) = none ∧
    deassSpec8 ("Dialogue: a,b,c,d,e,f,g,h,i".toList) = some ['i'] := by
  constructor
  · rfl
  · rfl

theorem strchrAfterComma_append (f rest : List Char) (hf : ',' ∉ f) :
    strchrAfterComma (f ++ ',' :: rest) = some rest := by
  induction f with
  | nil => simp [strchrAfterComma]
  | cons c f ih =>
      rw [List.cons_append, strchrAfterComma,
        if_neg (by simp at hf; exact fun h => hf.1 h.symm),
        ih (by simp at hf; exact hf.2)]

theorem skipCommas_succ (k : ℕ) (s : List Char) :
    skipCommas (k + 1) s = (strchrAfterComma s).bind (skipCommas k) := rfl

theorem skipCommas_foldr (fs : List (List Char)) (t : List Char)
    (hnc : ∀ f ∈ fs, ',' ∉ f) :
    skipCommas fs.length
      (List.foldr (fun f acc => f ++ ',' :: acc) t fs) = some t := by
  induction fs with
  | nil => rfl
  | cons f fs ih =>
      rw [List.length_cons, List.foldr_cons, skipCommas_succ,
        strchrAfterComma_append f _ (hnc f (List.mem_cons_self f fs)),
        Option.some_bind]
      exact ih fun g hg => hnc g (List.mem_cons_of_mem f hg)

/-- C9 (amended): subtitle extraction from a structured dialogue line
returns the text that remains after stripping NINE comma-delimited
leading fields (everything through the ninth comma; a line with fewer
commas yields no text, per the counterexample), with every markup escape
sequence — a backslash and the character following it — replaced by blank
characters; a plain-text rectangle is returned verbatim, and absence of
any rectangle yields no text rather than an error. -/
theorem C9_subtitle_extraction (f0 : List Char) (fs : List (List Char))
    (t u : List Char)
    (hlen : fs.length = 8) (h0 : ',' ∉ f0) (hnc : ∀ f ∈ fs, ',' ∉ f) :
    deass ("Dialogue:".toList ++
        List.foldr (fun f acc => f ++ ',' :: acc) t (f0 :: fs))
      = some (deassUnescape t) ∧
    (∀ c rest, deassUnescape ('\\' :: c :: rest)
      = ' ' :: ' ' :: deassUnescape rest) ∧
    ncvisual_subtitle [⟨.SUBTITLE_TEXT, u⟩] = some u ∧
    ncvisual_subtitle [] = none := by
  refine ⟨?_, fun c rest => rfl, rfl, rfl⟩
  unfold deass
  rw [if_neg (by
    rw [List.take_left' (by rfl : ("Dialogue:".toList).length = 9)]
    simp)]
  rw [List.foldr_cons, ← List.append_assoc]
  rw [show (9 : ℕ) = 8 + 1 from rfl, skipCommas_succ,
    strchrAfterComma_append ("Dialogue:".toList ++ f0) _ (by
      simp only [List.mem_append]
      rintro (hcomma | hcomma)
      · exact absurd hcomma (by decide)
      · exact h0 hcomma),
    Option.some_bind, ← hlen,
    skipCommas_foldr fs t hnc, Option.map_some']

/-- Witness for the amended C9 on a nine-field dialogue line. -/
theorem C9_witness :
    deass ("Dialogue:".toList ++
        List.foldr (fun f acc => f ++ ',' :: acc) ['h', 'i']
          (['a'] :: [['b'], ['c'], ['d'], ['e'], ['f'], ['g'], ['h'], []]))
      = some (deassUnescape ['h', 'i']) ∧
    (∀ c rest, deassUnescape ('\\' :: c :: rest)
      = ' ' :: ' ' :: deassUnescape rest) ∧
    ncvisual_subtitle [⟨.SUBTITLE_TEXT, ['o', 'k']⟩] = some ['o', 'k'] ∧
    ncvisual_subtitle [] = none :=
  C9_subtitle_extraction ['a']
    [['b'], ['c'], ['d'], ['e'], ['f'], ['g'], ['h'], []]
    ['h', 'i'] ['o', 'k'] rfl (by decide) (by decide)
